import Mathlib

/-!
Verification of `src/calibre/db/cli/cmd_fts_index.py` against its
natural-language specification.

The file shallowly embeds the Python module: pure helpers become Lean
functions, the process-wide memoized progress tracker becomes explicit
state passing over `ProcState`, fallible calls return `Except`, and the
calls `implementation` makes against the database boundary are recorded
in an effect trace.  Python integers are modelled as `Int` (no overflow
in CPython), strings as `String` or `List Char`.
-/

set_option autoImplicit false

namespace FtsIndex

/--
Modelled from the spec: `IndexingProgress` from `calibre.db.utils`, which is
not in the source tree.  Per the spec it holds remaining/total counts (the
unset sentinel being `-1`/`-1`), plus a bounded record of rate samples used
to estimate time left; `time_left` reports unknown (`none`) until at least
two samples exist.  The estimation formula itself is left open by the spec
("implementers should choose a reasonable method"), so the model only fixes
the known/unknown distinction and reads the estimate off the latest counts.
Samples are kept most-recent-first.
-/
structure IndexingProgress where
  left : Int
  total : Int
  samples : List (Int × Int)
deriving DecidableEq, Repr

/-- Modelled from the spec: the freshly constructed tracker starts at the
unset sentinel with no rate samples. -/
def IndexingProgress.initial : IndexingProgress :=
  { left := -1, total := -1, samples := [] }

/-- Modelled from the spec: `update(remaining, total)` overwrites the counts
and appends a rate sample. -/
def IndexingProgress.update (ip : IndexingProgress) (left total : Int) :
    IndexingProgress :=
  { left := left, total := total, samples := (left, total) :: ip.samples }

/-- Modelled from the spec: `reset()` restores the unset sentinel and clears
the rate samples. -/
def IndexingProgress.reset (_ip : IndexingProgress) : IndexingProgress :=
  IndexingProgress.initial

/-- Modelled from the spec: the derived `time_left` attribute; `none` stands
for the "unknown" report required while fewer than two samples exist. -/
def IndexingProgress.time_left (ip : IndexingProgress) : Option Int :=
  if ip.samples.length < 2 then none else some ip.left

/--
The process-level state relevant to the module: the `lru_cache` memo cell of
`indexing_progress()` (`none` before the first call), together with a count
of how many times the `IndexingProgress` constructor has run, which lets the
"created at most once per process" property be stated.
-/
structure ProcState where
  cached : Option IndexingProgress
  constructions : Nat
deriving DecidableEq, Repr

/-- The state of a process in which `indexing_progress()` has never run. -/
def ProcState.start : ProcState := { cached := none, constructions := 0 }

/--
Embeds `indexing_progress()`: under `lru_cache`, the first call constructs an
`IndexingProgress` (attaching its lock) and caches it; every later call
returns the cached instance.  The lock itself is a concurrency primitive with
no sequential content, so it is not represented.
-/
def indexing_progress (s : ProcState) : IndexingProgress × ProcState :=
  match s.cached with
  | some ip => (ip, s)
  | none =>
      (IndexingProgress.initial,
       { cached := some IndexingProgress.initial,
         constructions := s.constructions + 1 })

/-- Embeds `update_indexing_progress(left, total)`: fetch the singleton and
mutate it in place via `ip.update` (in-place mutation becomes writing the
updated value back into the memo cell). -/
def update_indexing_progress (left total : Int) (s : ProcState) : ProcState :=
  let r := indexing_progress s
  { r.2 with cached := some (r.1.update left total) }

/-- Embeds `reset_indexing_progress()`. -/
def reset_indexing_progress (s : ProcState) : ProcState :=
  let r := indexing_progress s
  { r.2 with cached := some r.1.reset }

/-- Embeds `indexing_progress_time_left()`: read `ip.time_left` off the
singleton. -/
def indexing_progress_time_left (s : ProcState) : Option Int × ProcState :=
  let r := indexing_progress s
  (r.1.time_left, r.2)

/-- The three module-level operations on the shared tracker, for stating
properties over arbitrary operation sequences. -/
inductive TrackerOp
  | update (left total : Int)
  | reset
  | query
deriving DecidableEq, Repr

/-- Run one tracker operation against the process state. -/
def applyOp (s : ProcState) : TrackerOp → ProcState
  | TrackerOp.update l t => update_indexing_progress l t s
  | TrackerOp.reset => reset_indexing_progress s
  | TrackerOp.query => (indexing_progress_time_left s).2

/-- Run a sequence of tracker operations. -/
def runOps (ops : List TrackerOp) (s : ProcState) : ProcState :=
  ops.foldl applyOp s

/-!
The database boundary consumed by `implementation`, per the external
interface section of the spec: `is_fts_enabled`, `enable_fts`,
`fts_indexing_progress`, `reindex_fts`, `reindex_fts_book`.  Only the
FTS-enabled flag and the reported progress pair influence the module, so the
handle carries exactly those; the mutating calls `implementation` issues are
additionally recorded in an effect trace so that frame conditions ("performs
no database mutation") are statable.
-/

/-- The database handle as `implementation` observes it. -/
structure DB where
  fts_enabled : Bool
  progress : Int × Int
deriving DecidableEq, Repr

/-- Embeds `db.is_fts_enabled()`. -/
def DB.is_fts_enabled (db : DB) : Bool := db.fts_enabled

/-- Embeds `db.fts_indexing_progress()`, returning the `(left, total)`
pair. -/
def DB.fts_indexing_progress (db : DB) : Int × Int := db.progress

/-- Embeds `db.enable_fts(enabled=...)`; the Python default is
`enabled=True`. -/
def DB.enable_fts (db : DB) (enabled : Bool) : DB :=
  { db with fts_enabled := enabled }

/-- A book re-indexing spec as produced by `to_spec`: a book id plus format
names. -/
abbrev BookSpec := Int × List String

/-- The mutating calls `implementation` can issue, in issue order, with the
tracker reset alongside them so that "reset before `enable_fts(False)`" is an
ordering fact of one trace. -/
inductive Eff
  | reset_indexing_progress
  | enable_fts (enabled : Bool)
  | reindex_fts
  | reindex_fts_book (spec : BookSpec)
deriving DecidableEq, Repr

/-- The `adata` dictionary passed to `implementation`; the only key read is
`'items'` (absent keys read as `None` via `.get`). -/
structure AData where
  items : Option (List BookSpec)
deriving DecidableEq, Repr

/-- A Python exception as `run_job` inspects it: its message (`str(e)`) and
whether `suppress_traceback` is set on it (`getattr(e, 'suppress_traceback',
False)`). -/
structure PyExn where
  msg : String
  suppress_traceback : Bool
deriving DecidableEq, Repr

/-- The dictionary `{'enabled': ..., 'left': ..., 'total': ...}` returned by
the status-shaped actions. -/
structure StatusDict where
  enabled : Bool
  left : Int
  total : Int
deriving DecidableEq, Repr

/-- The message of the distinguished user-facing failure raised by `reindex`
while FTS is disabled (the `_()` translation wrapper is the identity in the
source language). -/
def ftsDisabledMsg : String := "Full text indexing is not enabled on this library"

/-- What one call to `implementation` produces: its return value (`none`
models Python `None`, an `Except.error` models a raised exception), the
database and process state after the call, and the trace of mutating calls
issued. -/
structure ImplResult where
  result : Except PyExn (Option StatusDict)
  db : DB
  ps : ProcState
  effs : List Eff
deriving Repr

/--
Embeds `implementation(db, notify_changes, action, adata=None)`.  The
`notify_changes` argument is never used by the function body and is omitted.
An action string matching none of the four `if` branches falls off the end of
the function, which in Python returns `None`.
-/
def implementation (db : DB) (ps : ProcState) (action : String)
    (adata : AData) : ImplResult :=
  if action = "status" then
    if db.is_fts_enabled then
      { result := Except.ok (some
          { enabled := true,
            left := db.fts_indexing_progress.1,
            total := db.fts_indexing_progress.2 }),
        db := db, ps := ps, effs := [] }
    else
      { result := Except.ok (some { enabled := false, left := -1, total := -1 }),
        db := db, ps := ps, effs := [] }
  else if action = "enable" then
    let db1 := if !db.is_fts_enabled then db.enable_fts true else db
    { result := Except.ok (some
        { enabled := true,
          left := db1.fts_indexing_progress.1,
          total := db1.fts_indexing_progress.2 }),
      db := db1, ps := ps,
      effs := if !db.is_fts_enabled then [Eff.enable_fts true] else [] }
  else if action = "disable" then
    if db.is_fts_enabled then
      { result := Except.ok none,
        db := db.enable_fts false,
        ps := reset_indexing_progress ps,
        effs := [Eff.reset_indexing_progress, Eff.enable_fts false] }
    else
      { result := Except.ok none, db := db, ps := ps, effs := [] }
  else if action = "reindex" then
    if !db.is_fts_enabled then
      { result := Except.error
          { msg := ftsDisabledMsg, suppress_traceback := true },
        db := db, ps := ps, effs := [] }
    else
      match adata.items with
      | some (it :: its) =>
          { result := Except.ok (some
              { enabled := true,
                left := db.fts_indexing_progress.1,
                total := db.fts_indexing_progress.2 }),
            db := db, ps := ps,
            effs := (it :: its).map Eff.reindex_fts_book }
      | _ =>
          { result := Except.ok (some
              { enabled := true,
                left := db.fts_indexing_progress.1,
                total := db.fts_indexing_progress.2 }),
            db := db, ps := ps, effs := [Eff.reindex_fts] }
  else
    { result := Except.ok none, db := db, ps := ps, effs := [] }

/-- How the `run_job` closure inside `main` terminates: a returned value, a
`SystemExit` carrying a clean message, or a re-raised exception. -/
inductive JobOutcome
  | ok (r : Option StatusDict)
  | systemExit (msg : String)
  | raised (e : PyExn)
deriving DecidableEq, Repr

/-- The `except Exception` clause of `run_job`: exactly the exceptions with
`suppress_traceback` set become `SystemExit(str(e))`; every other exception
is re-raised unchanged. -/
def run_job_outcome (res : Except PyExn (Option StatusDict)) : JobOutcome :=
  match res with
  | Except.ok v => JobOutcome.ok v
  | Except.error e =>
      if e.suppress_traceback then JobOutcome.systemExit e.msg
      else JobOutcome.raised e

/-- Embeds `run_job(dbctx, which, **kw)` for a local context, where
`dbctx.run('fts_index', which, data)` is a call to `implementation`. -/
def run_job (db : DB) (ps : ProcState) (which : String) (data : AData) :
    JobOutcome :=
  run_job_outcome (implementation db ps which data).result

/-!
`local_wait_for_completion(db, indexing_speed)`.  The listener closure is
invoked by the notification mechanism with `(event_type, library_id,
event_data)`; for an indexing-progress event it calls
`update_indexing_progress(*event_data)` and then enqueues the pair into the
`queue.Queue` `q`.  The consumer loop blocks on `q.get()`.  Because the queue
is FIFO with a single consumer, any interleaving of deliveries and dequeues
consumes the events in delivery order, so the embedding linearizes a run as:
the delivered event sequence is fed to the listener, then the loop consumes
the resulting queue contents.  A run whose queue is exhausted before a
terminal event was dequeued corresponds to `q.get()` blocking for an event
that never comes (`returned = false`).
-/

/-- Modelled from the spec: the event types delivered by the database
listener mechanism (`calibre.db.listeners`, not in the source tree).  Only
`indexing_progress_changed` is inspected by the listener; `other` stands for
every remaining member of the enumeration. -/
inductive EventType
  | indexing_progress_changed
  | other
deriving DecidableEq, Repr

/-- One delivered notification: the `(event_type, library_id, event_data)`
triple the listener closure receives, with `event_data` the `(left, total)`
pair for progress events. -/
structure Event where
  type : EventType
  library_id : String
  data : Int × Int
deriving DecidableEq, Repr

/-- An indexing-progress notification carrying the pair `(l, t)`. -/
def mkProgressEvent (l t : Int) : Event :=
  { type := EventType.indexing_progress_changed, library_id := "", data := (l, t) }

/-- A sequence of indexing-progress notifications carrying the given pairs. -/
def progressEvents (l : List (Int × Int)) : List Event :=
  l.map fun p => mkProgressEvent p.1 p.2

/-- The state the listener closure touches: the shared tracker, the log of
`update_indexing_progress` calls it has made (in call order), and the
contents of `q` in FIFO order. -/
structure WaiterSt where
  ps : ProcState
  updates : List (Int × Int)
  queue : List (Int × Int)
deriving Repr

/-- Embeds the `listen` closure: on an `indexing_progress_changed` event it
forwards `event_data` to `update_indexing_progress` and enqueues it;
every other event type is ignored. -/
def listen (st : WaiterSt) (ev : Event) : WaiterSt :=
  if ev.type = EventType.indexing_progress_changed then
    { ps := update_indexing_progress ev.data.1 ev.data.2 st.ps,
      updates := st.updates ++ [ev.data],
      queue := st.queue ++ [ev.data] }
  else st

/-- The `while True` consumer loop over the queue contents: dequeue `(l, t)`;
if `l < 1` print a newline and return, else render progress and loop.
Returns the dequeued events and whether the loop returned (`false` means the
next `q.get()` blocks with the queue empty). -/
def consume_loop : List (Int × Int) → List (Int × Int) × Bool
  | [] => ([], false)
  | p :: rest =>
      if p.1 < 1 then ([p], true)
      else
        let r := consume_loop rest
        (p :: r.1, r.2)

/-- The observable outcome of one run of `local_wait_for_completion`. -/
structure WaitResult where
  updates : List (Int × Int)
  consumed : List (Int × Int)
  returned : Bool
  listenersAfter : Nat
  ps : ProcState
  speedSlow : Option Bool
deriving Repr

/--
Embeds `local_wait_for_completion(db, indexing_speed)` for one run.
`startProgress` is the pair `db.fts_indexing_progress()` returns after the
listener is registered; `delivered` is the sequence of notifications the
database delivers to the listener during the run; `listenersBefore` is the
number of listeners registered on the handle beforehand, and `ps0` the
process state.  The body registers the listener (`db.add_listener(listen)` —
the function contains no removal), optionally sets the indexing speed,
early-returns when the starting `left < 1`, and otherwise runs the consumer
loop.
-/
def local_wait_for_completion (startProgress : Int × Int)
    (delivered : List Event) (ps0 : ProcState) (listenersBefore : Nat)
    (indexing_speed : String) : WaitResult :=
  let st := delivered.foldl listen { ps := ps0, updates := [], queue := [] }
  let speedSlow : Option Bool :=
    if indexing_speed = "" then none else some (indexing_speed = "slow")
  if startProgress.1 < 1 then
    { updates := st.updates, consumed := [], returned := true,
      listenersAfter := listenersBefore + 1, ps := st.ps,
      speedSlow := speedSlow }
  else
    let r := consume_loop st.queue
    { updates := st.updates, consumed := r.1, returned := r.2,
      listenersAfter := listenersBefore + 1, ps := st.ps,
      speedSlow := speedSlow }

/-!
The dispatch skeleton of `main(opts, args, dbctx)`: the `if/elif` chain on
`args[0]`, whose final `else` prints the help text and raises
`SystemExit(f'{action} is not a known action')` — a `SystemExit` carrying a
string message, which CPython reports on stderr before exiting with status 1.
-/

/-- Which branch of `main`'s `if/elif` chain an action string selects. -/
inductive MainBranch
  | statusBranch
  | enableBranch
  | reindexBranch
  | disableBranch
  | unknownAction (helpPrinted : Bool) (message : String)
deriving DecidableEq, Repr

/-- Embeds the action dispatch of `main`, in source order. -/
def main_dispatch (action : String) : MainBranch :=
  if action = "status" then MainBranch.statusBranch
  else if action = "enable" then MainBranch.enableBranch
  else if action = "reindex" then MainBranch.reindexBranch
  else if action = "disable" then MainBranch.disableBranch
  else MainBranch.unknownAction true (action ++ " is not a known action")

/-!
The `to_spec` helper inside `main`'s `reindex` branch.  Strings are embedded
as `List Char` so that Python's `str.split(sep, maxsplit)` can be given a
direct structural definition.
-/

/-- Python `x.split(sep, 1)`: the part before the first occurrence of `sep`,
and `some` the remainder after it (or `none` when `sep` does not occur). -/
def splitFirst (sep : Char) : List Char → List Char × Option (List Char)
  | [] => ([], none)
  | c :: cs =>
      if c = sep then ([], some cs)
      else
        let r := splitFirst sep cs
        (c :: r.1, r.2)

/-- Python `s.split(sep)` with no maxsplit: splits at every occurrence of
`sep`, keeping empty parts (so the result is always nonempty). -/
def splitAll (sep : Char) : List Char → List (List Char)
  | [] => [[]]
  | c :: cs =>
      match splitAll sep cs with
      | [] => [[]]
      | r :: rs => if c = sep then [] :: r :: rs else (c :: r) :: rs

/-- The numeric value of a decimal digit character. -/
def digitVal (c : Char) : Option Nat :=
  if c.isDigit then some (c.toNat - Char.toNat '0') else none

/-- Parse a nonempty all-digit string as a natural number. -/
def parseDigits (cs : List Char) : Option Nat :=
  if cs = [] then none
  else
    cs.foldl
      (fun acc c =>
        match acc, digitVal c with
        | some n, some d => some (n * 10 + d)
        | _, _ => none)
      (some 0)

/-- Models Python `int(s)` on integer literals: an optional sign followed by
decimal digits.  (CPython additionally strips surrounding whitespace and
embedded underscores; those inputs are outside the claims considered here,
and a parse failure raises `ValueError`, modelled as `none`.) -/
def pyInt : List Char → Option Int
  | '-' :: rest => (parseDigits rest).map (fun n => -(n : Int))
  | '+' :: rest => (parseDigits rest).map (fun n => (n : Int))
  | cs => (parseDigits cs).map (fun n => (n : Int))

/-- Python `str.upper()` restricted to ASCII (the format names of interest). -/
def upperChars (cs : List Char) : List Char :=
  cs.map Char.toUpper

/--
Embeds `to_spec(x)`: split on the first `':'` only; parse the part before it
with `int` (failure propagates); with no `':'` return the one-element tuple
`(book_id,)`, otherwise split the remainder on every `','` and upper-case
each format name.  The returned tuple is modelled as the id paired with the
(possibly empty) list of format names.
-/
def to_spec (x : List Char) : Option (Int × List (List Char)) :=
  match splitFirst ':' x with
  | (p0, none) => (pyInt p0).map (fun book_id => (book_id, []))
  | (p0, some rest) =>
      (pyInt p0).map
        (fun book_id => (book_id, (splitAll ',' rest).map upperChars))

/-! Helper lemmas shared by the claim theorems. -/

theorem foldl_listen_progress (evs : List (Int × Int)) (st : WaiterSt) :
    (List.foldl listen st (progressEvents evs)).updates = st.updates ++ evs
    ∧ (List.foldl listen st (progressEvents evs)).queue = st.queue ++ evs := by
  induction evs generalizing st with
  | nil => simp [progressEvents]
  | cons p ps ih =>
      obtain ⟨l, t⟩ := p
      have h := ih (listen st (mkProgressEvent l t))
      simp only [progressEvents, List.map_cons, List.foldl_cons] at h ⊢
      simp [listen, mkProgressEvent] at h
      simp [h.1, h.2, listen, mkProgressEvent]

theorem consume_loop_stops_at_first_terminal (pre rest : List (Int × Int))
    (e : Int × Int) (hpre : ∀ p ∈ pre, ¬ p.1 < 1) (he : e.1 < 1) :
    consume_loop (pre ++ e :: rest) = (pre ++ [e], true) := by
  induction pre with
  | nil => simp [consume_loop, he]
  | cons p ps ih =>
      have hp := hpre p (by simp)
      have ihh := ih (fun q hq => hpre q (by simp [hq]))
      simp [consume_loop, hp, ihh]

theorem indexing_progress_after_reset (s : ProcState) :
    (indexing_progress (reset_indexing_progress s)).1
      = IndexingProgress.initial := by
  cases h : s.cached <;>
    simp [reset_indexing_progress, indexing_progress, h, IndexingProgress.reset]

theorem applyOp_cached (s : ProcState) (op : TrackerOp) :
    (applyOp s op).cached ≠ none := by
  cases op <;> cases h : s.cached <;>
    simp [applyOp, update_indexing_progress, reset_indexing_progress,
      indexing_progress_time_left, indexing_progress, h]

theorem applyOp_constructions (s : ProcState) (op : TrackerOp) :
    (applyOp s op).constructions
      = (if s.cached = none then s.constructions + 1 else s.constructions) := by
  cases op <;> cases h : s.cached <;>
    simp [applyOp, update_indexing_progress, reset_indexing_progress,
      indexing_progress_time_left, indexing_progress, h]

theorem runOps_constructions_le (ops : List TrackerOp) (s : ProcState)
    (h1 : s.constructions ≤ 1) (h2 : s.cached = none → s.constructions = 0) :
    (runOps ops s).constructions ≤ 1 := by
  induction ops generalizing s with
  | nil => simpa [runOps] using h1
  | cons op ops ih =>
      have hstep : (runOps (op :: ops) s) = runOps ops (applyOp s op) := by
        simp [runOps]
      rw [hstep]
      refine ih (applyOp s op) ?_ ?_
      · rw [applyOp_constructions]
        cases h : s.cached with
        | none => simp [h2 h]
        | some ip => simpa [h] using h1
      · intro hnone
        exact absurd hnone (applyOp_cached s op)

/-! Claim theorems. -/

/-- C1: when the starting `remaining` is at least 1 and the delivered
indexing-progress events are non-terminal events `pre` followed by the first
terminal event `e` (and then anything further), `local_wait_for_completion`
forwards every delivered event to the progress tracker via
`update_indexing_progress` in delivery order, and its consumer loop returns
upon dequeuing `e`, consuming exactly `pre ++ [e]` and nothing after it. -/
theorem local_wait_forwards_in_order_and_terminates
    (startProgress e : Int × Int) (pre rest : List (Int × Int))
    (ps0 : ProcState) (n : Nat) (speed : String)
    (hstart : ¬ startProgress.1 < 1)
    (hpre : ∀ p ∈ pre, ¬ p.1 < 1) (he : e.1 < 1) :
    (local_wait_for_completion startProgress
        (progressEvents (pre ++ e :: rest)) ps0 n speed).updates
          = pre ++ e :: rest
    ∧ (local_wait_for_completion startProgress
        (progressEvents (pre ++ e :: rest)) ps0 n speed).consumed = pre ++ [e]
    ∧ (local_wait_for_completion startProgress
        (progressEvents (pre ++ e :: rest)) ps0 n speed).returned = true := by
  obtain ⟨hu, hq⟩ := foldl_listen_progress (pre ++ e :: rest)
    { ps := ps0, updates := [], queue := [] }
  simp only [List.nil_append] at hu hq
  have hc := consume_loop_stops_at_first_terminal pre rest e hpre he
  refine ⟨?_, ?_, ?_⟩ <;>
    simp only [local_wait_for_completion, hstart, if_false]
  · exact hu
  · rw [hq, hc]
  · rw [hq, hc]

/-- C1 witness: the spec's concrete run — starting progress `(50, 100)` and
events `(50,100)`, `(20,100)`, `(0,100)`: all three are forwarded in order,
all three are consumed, and the loop returns on the third. -/
theorem local_wait_forwards_in_order_and_terminates_witness :
    (¬ ((50 : Int), (100 : Int)).1 < 1)
    ∧ ((local_wait_for_completion ((50 : Int), (100 : Int))
          (progressEvents ([(50, 100), (20, 100)] ++ (0, 100) :: []))
          ProcState.start 0 "").updates
            = [((50 : Int), (100 : Int)), (20, 100)] ++ (0, 100) :: []
      ∧ (local_wait_for_completion ((50 : Int), (100 : Int))
          (progressEvents ([(50, 100), (20, 100)] ++ (0, 100) :: []))
          ProcState.start 0 "").consumed
            = [((50 : Int), (100 : Int)), (20, 100)] ++ [(0, 100)]
      ∧ (local_wait_for_completion ((50 : Int), (100 : Int))
          (progressEvents ([(50, 100), (20, 100)] ++ (0, 100) :: []))
          ProcState.start 0 "").returned = true) :=
  ⟨by decide,
   local_wait_forwards_in_order_and_terminates (50, 100) (0, 100)
     [(50, 100), (20, 100)] [] ProcState.start 0 ""
     (by decide) (by decide) (by decide)⟩

/-- C2: when the starting `remaining` reported by `fts_indexing_progress` is
below 1, `local_wait_for_completion` returns at once without dequeuing any
event, whatever is delivered. -/
theorem local_wait_early_return_when_already_complete
    (startProgress : Int × Int) (delivered : List Event) (ps0 : ProcState)
    (n : Nat) (speed : String) (h : startProgress.1 < 1) :
    (local_wait_for_completion startProgress delivered ps0 n speed).consumed = []
    ∧ (local_wait_for_completion startProgress delivered ps0 n speed).returned
        = true := by
  simp [local_wait_for_completion, h]

/-- C2 witness: starting progress `(0, 5)` with no events delivered — the
waiter returns immediately having consumed nothing. -/
theorem local_wait_early_return_when_already_complete_witness :
    ((0 : Int), (5 : Int)).1 < 1
    ∧ ((local_wait_for_completion ((0 : Int), (5 : Int)) [] ProcState.start 0
          "").consumed = []
      ∧ (local_wait_for_completion ((0 : Int), (5 : Int)) [] ProcState.start 0
          "").returned = true) :=
  ⟨by decide,
   local_wait_early_return_when_already_complete (0, 5) [] ProcState.start 0 ""
     (by decide)⟩

/-- C3 counterexample: a returning run of `local_wait_for_completion` after
which a listener is still registered on the handle.  With no listeners
registered beforehand and starting progress `(0, 0)`, the call returns, yet
the number of registered listeners afterwards is not zero: the body calls
`db.add_listener(listen)` and contains no removal, so the claim that the
listener has been unregistered on return is false. -/
theorem local_wait_listener_still_registered_cex :
    (local_wait_for_completion ((0 : Int), (0 : Int)) [] ProcState.start 0
        "").returned = true
    ∧ (local_wait_for_completion ((0 : Int), (0 : Int)) [] ProcState.start 0
        "").listenersAfter ≠ 0 := by
  constructor
  · rfl
  · intro h
    exact Nat.succ_ne_zero 0 h

/-- C3 amended: whenever `local_wait_for_completion` returns, the listener it
registered with `db.add_listener` is still registered — the handle holds
exactly one more listener than before the call, since the function never
unregisters it. -/
theorem local_wait_leaves_listener_registered
    (startProgress : Int × Int) (delivered : List Event) (ps0 : ProcState)
    (n : Nat) (speed : String) :
    (local_wait_for_completion startProgress delivered ps0 n speed).listenersAfter
      = n + 1 := by
  by_cases h : startProgress.1 < 1 <;> simp [local_wait_for_completion, h]

/-- C4: `reindex` while FTS is disabled raises the distinguished user-facing
failure — an exception with `suppress_traceback` set carrying the clean
message — and `run_job` turns exactly the `suppress_traceback` exceptions
into `SystemExit` with the exception's message, re-raising every other
exception unchanged. -/
theorem reindex_disabled_clean_failure
    (db : DB) (ps : ProcState) (adata : AData) (h : db.fts_enabled = false) :
    (implementation db ps "reindex" adata).result
        = Except.error { msg := ftsDisabledMsg, suppress_traceback := true }
    ∧ run_job db ps "reindex" adata = JobOutcome.systemExit ftsDisabledMsg
    ∧ (∀ e : PyExn, run_job_outcome (Except.error e)
        = if e.suppress_traceback then JobOutcome.systemExit e.msg
          else JobOutcome.raised e) := by
  refine ⟨?_, ?_, ?_⟩
  · simp [implementation, DB.is_fts_enabled, h]
  · simp [run_job, run_job_outcome, implementation, DB.is_fts_enabled, h]
  · intro e
    cases he : e.suppress_traceback <;> simp [run_job_outcome, he]

/-- C4 witness: a disabled handle — `reindex` yields the marked exception and
`run_job` exits cleanly with its message. -/
theorem reindex_disabled_clean_failure_witness :
    ({ fts_enabled := false, progress := (3, 10) } : DB).fts_enabled = false
    ∧ ((implementation { fts_enabled := false, progress := (3, 10) }
          ProcState.start "reindex" { items := none }).result
            = Except.error { msg := ftsDisabledMsg, suppress_traceback := true }
      ∧ run_job { fts_enabled := false, progress := (3, 10) } ProcState.start
          "reindex" { items := none } = JobOutcome.systemExit ftsDisabledMsg
      ∧ (∀ e : PyExn, run_job_outcome (Except.error e)
          = if e.suppress_traceback then JobOutcome.systemExit e.msg
            else JobOutcome.raised e)) :=
  ⟨rfl,
   reindex_disabled_clean_failure { fts_enabled := false, progress := (3, 10) }
     ProcState.start { items := none } rfl⟩

/-- C5: the `status` action reports `{enabled := false, left := -1,
total := -1}` (the unset sentinel) on a handle with FTS disabled, and
`{enabled := true}` with the pair `db.fts_indexing_progress()` when it is
enabled. -/
theorem status_action_result (db : DB) (ps : ProcState) (adata : AData) :
    (implementation db ps "status" adata).result
      = Except.ok (some
          (if db.fts_enabled then
            { enabled := true, left := db.fts_indexing_progress.1,
              total := db.fts_indexing_progress.2 }
          else { enabled := false, left := -1, total := -1 })) := by
  cases h : db.fts_enabled <;>
    simp [implementation, DB.is_fts_enabled, h]

/-- C6: the `disable` action returns `None`; on an enabled handle it issues
exactly the reset of the shared progress state followed by
`enable_fts(enabled=False)` — in that order — leaving the tracker at the
unset sentinel, while on an already-disabled handle it performs no reset and
no database mutation and leaves every piece of state unchanged. -/
theorem disable_action_spec (db : DB) (ps : ProcState) (adata : AData) :
    (implementation db ps "disable" adata).result = Except.ok none
    ∧ (implementation db ps "disable" adata).effs
        = (if db.fts_enabled then
            [Eff.reset_indexing_progress, Eff.enable_fts false]
          else [])
    ∧ (implementation db ps "disable" adata).db
        = (if db.fts_enabled then db.enable_fts false else db)
    ∧ (implementation db ps "disable" adata).ps
        = (if db.fts_enabled then reset_indexing_progress ps else ps)
    ∧ (indexing_progress (implementation db ps "disable" adata).ps).1
        = (if db.fts_enabled then IndexingProgress.initial
          else (indexing_progress ps).1) := by
  cases h : db.fts_enabled <;>
    simp [implementation, DB.is_fts_enabled, h, indexing_progress_after_reset]

/-- C7: `indexing_progress()` is memoized — a second call returns exactly
what the first returned, with no state change; starting from a fresh process
any sequence of tracker operations constructs the `IndexingProgress` instance
at most once; and `update_indexing_progress` / `reset_indexing_progress` /
`indexing_progress_time_left` all act through that one instance: a time-left
query after an update reads the updated instance, and after a reset reads the
freshly reset one. -/
theorem indexing_progress_memoized_singleton :
    (∀ s : ProcState,
      indexing_progress ((indexing_progress s).2) = indexing_progress s)
    ∧ (∀ ops : List TrackerOp,
        (runOps ops ProcState.start).constructions ≤ 1)
    ∧ (∀ (l t : Int) (s : ProcState),
        (indexing_progress_time_left (update_indexing_progress l t s)).1
          = ((indexing_progress s).1.update l t).time_left)
    ∧ (∀ s : ProcState,
        (indexing_progress_time_left (reset_indexing_progress s)).1
          = IndexingProgress.initial.time_left) := by
  refine ⟨?_, ?_, ?_, ?_⟩
  · intro s
    cases h : s.cached <;> simp [indexing_progress, h]
  · intro ops
    exact runOps_constructions_le ops ProcState.start
      (by simp [ProcState.start]) (fun _ => rfl)
  · intro l t s
    cases h : s.cached <;>
      simp [indexing_progress_time_left, update_indexing_progress,
        indexing_progress, h]
  · intro s
    simp only [indexing_progress_time_left]
    rw [indexing_progress_after_reset]

/-- C8: an action string that is none of `status`, `enable`, `reindex`,
`disable` falls through `main`'s dispatch to the final `else`, which prints
the help text and raises `SystemExit` whose string message names the action —
a clean non-zero termination (CPython exits with status 1 on a `SystemExit`
carrying a string), not an internal error. -/
theorem main_unknown_action_clean_exit (action : String)
    (h : action ∉ ["status", "enable", "disable", "reindex"]) :
    main_dispatch action
      = MainBranch.unknownAction true (action ++ " is not a known action") := by
  simp only [List.mem_cons, List.not_mem_nil, or_false, not_or] at h
  obtain ⟨h1, h2, h3, h4⟩ := h
  simp [main_dispatch, h1, h2, h3, h4]

/-- C8 witness: the action `frobnicate` reaches the unknown-action exit with
the help printed and the message naming it. -/
theorem main_unknown_action_clean_exit_witness :
    "frobnicate" ∉ ["status", "enable", "disable", "reindex"]
    ∧ main_dispatch "frobnicate"
        = MainBranch.unknownAction true
            ("frobnicate" ++ " is not a known action") :=
  ⟨by decide, main_unknown_action_clean_exit "frobnicate" (by decide)⟩

/-- C9: `implementation` on an action string outside the four known ones
silently returns `None`: no exception, no database call, no state change —
unknown-action rejection lives only in `main`'s dispatch. -/
theorem implementation_unknown_action_is_noop (db : DB) (ps : ProcState)
    (adata : AData) (action : String)
    (h : action ∉ ["status", "enable", "disable", "reindex"]) :
    implementation db ps action adata
      = { result := Except.ok none, db := db, ps := ps, effs := [] } := by
  simp only [List.mem_cons, List.not_mem_nil, or_false, not_or] at h
  obtain ⟨h1, h2, h3, h4⟩ := h
  simp [implementation, h1, h2, h3, h4]

/-- C9 witness: the unknown action `xyz` on an enabled handle returns `None`
and leaves the handle, the process state and the effect trace untouched. -/
theorem implementation_unknown_action_is_noop_witness :
    "xyz" ∉ ["status", "enable", "disable", "reindex"]
    ∧ implementation { fts_enabled := true, progress := (2, 5) } ProcState.start
        "xyz" { items := none }
      = { result := Except.ok none,
          db := { fts_enabled := true, progress := (2, 5) },
          ps := ProcState.start, effs := [] } :=
  ⟨by decide,
   implementation_unknown_action_is_noop { fts_enabled := true, progress := (2, 5) }
     ProcState.start { items := none } "xyz" (by decide)⟩

theorem splitFirst_of_not_mem (sep : Char) (ds : List Char) (h : sep ∉ ds) :
    splitFirst sep ds = (ds, none) := by
  induction ds with
  | nil => rfl
  | cons c cs ih =>
      have hc : ¬ c = sep := by
        rintro rfl
        exact h (by simp)
      have hm : sep ∉ cs := fun hmem => h (by simp [hmem])
      simp [splitFirst, hc, ih hm]

theorem splitFirst_append (sep : Char) (ds rest : List Char) (h : sep ∉ ds) :
    splitFirst sep (ds ++ sep :: rest) = (ds, some rest) := by
  induction ds with
  | nil => simp [splitFirst]
  | cons c cs ih =>
      have hc : ¬ c = sep := by
        rintro rfl
        exact h (by simp)
      have hm : sep ∉ cs := fun hmem => h (by simp [hmem])
      simp [splitFirst, hc, ih hm]

/-- C10: `to_spec` on an item `N` (an integer literal with no colon) returns
the one-element spec `(int(N),)`, and on `N:rest` splits at the first colon
only, parses `N`, splits `rest` on every comma and upper-cases each format
name. -/
theorem to_spec_splits_and_uppercases (ds rest : List Char) (n : Int)
    (h1 : pyInt ds = some n) (h2 : ':' ∉ ds) :
    to_spec ds = some (n, [])
    ∧ to_spec (ds ++ ':' :: rest)
        = some (n, (splitAll ',' rest).map upperChars) := by
  constructor
  · simp [to_spec, splitFirst_of_not_mem ':' ds h2, h1]
  · simp [to_spec, splitFirst_append ':' ds rest h2, h1]

/-- C10 witness: `to_spec` on `12` and on `12:epub,mobi` — the latter parses
to book id 12 with format names `EPUB` and `MOBI`. -/
theorem to_spec_splits_and_uppercases_witness :
    pyInt ['1', '2'] = some 12
    ∧ (':' ∉ ['1', '2'])
    ∧ to_spec ['1', '2'] = some (12, [])
    ∧ to_spec (['1', '2'] ++ ':' :: ['e', 'p', 'u', 'b', ',', 'm', 'o', 'b', 'i'])
        = some (12, [['E', 'P', 'U', 'B'], ['M', 'O', 'B', 'I']]) :=
  ⟨by decide, by decide,
   (to_spec_splits_and_uppercases ['1', '2']
     ['e', 'p', 'u', 'b', ',', 'm', 'o', 'b', 'i'] 12 (by decide) (by decide)).1,
   ((to_spec_splits_and_uppercases ['1', '2']
     ['e', 'p', 'u', 'b', ',', 'm', 'o', 'b', 'i'] 12 (by decide)
     (by decide)).2).trans (by decide)⟩

end FtsIndex
